import Mathlib

/-!
Verification of the resource-annotation extension (src/extension.js).

The development shallowly embeds the JavaScript source. JavaScript values
that can hold resource ids / parent ids (numbers, strings, null, undefined)
are modelled by `JSVal` together with JS truthiness, strict equality
(`===`), string coercion (`toString` / property-key coercion).

The imperative pieces are embedded as follows:
- the module-level `resources` snapshot becomes an explicit argument;
- `fetchResources` (async, try/catch) becomes a function of the fetch
  outcome and the previous snapshot;
- `getResourcePath`'s unguarded `while` loop becomes a fuel-indexed loop
  `pathLoop` whose `none` result means "the loop has not exited within the
  given number of iterations" (the JS function diverges exactly when
  `pathLoop` is `none` for every fuel);
- `buildResourceTree`'s mutable `tree` object becomes the key list in
  JS object-key order (`objectKeys`), the per-key stored record
  (`valueFor`), and the per-key children list accumulated by the second
  pass (`childrenMap`);
- `handleSelectionChange`'s loops become structural recursion over the
  enumerated lines and the regex matches of each line, threading the
  decoration array and the status-bar text.
-/

namespace ResExt

/-- JavaScript values relevant to `id` / `pid` fields. -/
inductive JSVal where
  | num (n : Int)
  | str (s : String)
  | null
  | undef
deriving DecidableEq, Repr

/-- JS truthiness of a `JSVal` (`0`, `""`, `null`, `undefined` are falsy). -/
def jsTruthy : JSVal → Bool
  | .num n => n != 0
  | .str s => s != ""
  | .null => false
  | .undef => false

/-- JS strict equality `===` restricted to `JSVal` (no cross-type coercion). -/
def jsStrictEq : JSVal → JSVal → Bool
  | .num a, .num b => a == b
  | .str a, .str b => a == b
  | .null, .null => true
  | .undef, .undef => true
  | _, _ => false

/-- JS `toString` / property-key coercion of a `JSVal`. -/
def jsToString : JSVal → String
  | .num n => toString n
  | .str s => s
  | .null => "null"
  | .undef => "undefined"

/-- A resource record as fetched from the database. -/
structure Resource where
  id : JSVal
  pid : JSVal
  name : String
  code : String
deriving DecidableEq, Repr

/-! ### fetchResources -/

/-- Outcome of the asynchronous MongoDB fetch in `fetchResources`:
the connection can fail, the query can fail, or the full record list
arrives. -/
inductive FetchOutcome where
  | connectFail (e : String)
  | queryFail (e : String)
  | success (rs : List Resource)

/-- Embedding of `fetchResources`: given the previous value of the
module-level `resources` array and the fetch outcome, return the new
value of `resources` together with the error message shown to the user
(`none` when no error is reported).  The assignment
`resources = await collection.find().toArray()` happens only on the
success path; both failure paths land in the `catch` block, which leaves
`resources` untouched and shows the fixed error message. -/
def fetchResources (prev : List Resource) : FetchOutcome → List Resource × Option String
  | .connectFail _ =>
      (prev, some "Failed to fetch resources. Please check your database connection.")
  | .queryFail _ =>
      (prev, some "Failed to fetch resources. Please check your database connection.")
  | .success rs => (rs, none)

/-! ### buildResourceTree

`buildResourceTree` builds a JS object `tree` keyed by `resource.id`
(property keys are the `toString` coercions of the ids), then appends
each node with a truthy and key-resolvable `pid` to its parent node's
`children`, and finally returns `Object.values(tree)` filtered by
`!resource.pid`.  `Object.values` enumerates array-index-like keys first
in ascending numeric order, then the remaining keys in insertion order. -/

/-- Property keys of the records in insertion order, first occurrence
kept (a later record with the same key overwrites the stored value but
keeps the original key position). -/
def firstOccKeys (ks : List String) : List String :=
  ks.foldl (fun acc k => if k ∈ acc then acc else acc ++ [k]) []

/-- Numeric value of a digit string (helper for array-index keys). -/
def digitsVal (s : String) : Nat :=
  s.toList.foldl (fun a c => a * 10 + (c.toNat - 48)) 0

/-- Whether a property key is a JS array index: the canonical decimal
form of an integer below 2^32 - 1. -/
def isArrayIndex (s : String) : Bool :=
  s.toList.all (fun c => c.isDigit) && !s.isEmpty &&
    (toString (digitsVal s) == s) && (digitsVal s < 4294967295)

/-- Insert a key into a list of array-index keys sorted by numeric value. -/
def insertAsc (a : String) : List String → List String
  | [] => [a]
  | b :: t => if digitsVal a ≤ digitsVal b then a :: b :: t else b :: insertAsc a t

/-- Sort array-index keys in ascending numeric order. -/
def sortNumeric (ks : List String) : List String :=
  ks.foldr insertAsc []

/-- The own property keys of the `tree` object in JS enumeration order:
array-index keys ascending, then the other keys in insertion order. -/
def objectKeys (rs : List Resource) : List String :=
  sortNumeric ((firstOccKeys (rs.map (fun r => jsToString r.id))).filter isArrayIndex) ++
    (firstOccKeys (rs.map (fun r => jsToString r.id))).filter (fun k => !isArrayIndex k)

/-- The record stored at a property key after the first pass: the last
record whose id coerces to that key (later assignments overwrite). -/
def valueFor (rs : List Resource) (k : String) : Option Resource :=
  (rs.filter (fun r => jsToString r.id == k)).getLast?

/-- The result of `Object.values(tree)`: the stored records in JS key order. -/
def objectValues (rs : List Resource) : List Resource :=
  (objectKeys rs).filterMap (valueFor rs)

/-- Whether the `tree` object has a node at the given key (truthiness of
`tree[k]` in the second pass; the first pass inserted every record). -/
def hasKey (rs : List Resource) (k : String) : Bool :=
  rs.any (fun q => jsToString q.id == k)

/-- One step of the second pass: if the record has a truthy `pid` and
`tree[pid]` exists, push its key onto the children of `tree[pid]`. -/
def childStep (rs : List Resource) (m : String → List String) (r : Resource) :
    String → List String :=
  if jsTruthy r.pid && hasKey rs (jsToString r.pid) then
    fun k => if k == jsToString r.pid then m k ++ [jsToString r.id] else m k
  else m

/-- Children lists built by the second pass, as a map from a node's key
to the keys of its children in push order: for each record (in input
order) with truthy `pid` such that `tree[pid]` exists, the record's node
is pushed onto `tree[pid].children`. -/
def childrenMap (rs : List Resource) : String → List String :=
  rs.foldl (childStep rs) (fun _ => [])

/-- The returned roots: `Object.values(tree).filter((resource) => !resource.pid)`. -/
def rootsOf (rs : List Resource) : List Resource :=
  (objectValues rs).filter (fun r => !jsTruthy r.pid)

/-- Embedding of `buildResourceTree`: the forest is the list of root
records together with the children graph on property keys. -/
def buildResourceTree (rs : List Resource) : List Resource × (String → List String) :=
  (rootsOf rs, childrenMap rs)

/-! ### getResourcePath -/

/-- One lookup of the `while` condition:
`tree.find((r) => r.id === pid)`. -/
def parentOf (rs : List Resource) (pid : JSVal) : Option Resource :=
  rs.find? (fun q => jsStrictEq q.id pid)

/-- Fuel-indexed embedding of the unguarded `while (parent)` loop of
`getResourcePath`, carrying the accumulated `path` array.  `none` means
the loop has not exited within `fuel` iterations; the JS loop diverges
exactly when this is `none` for every fuel. -/
def pathLoop (rs : List Resource) : Nat → JSVal → List String → Option (List String)
  | 0, _, _ => none
  | fuel + 1, pid, acc =>
      match parentOf rs pid with
      | none => some acc
      | some p => pathLoop rs fuel p.pid (p.name :: acc)

/-- The name sequence built by `getResourcePath` (`path` starts as
`[resource.name]` and parents are prepended). -/
def getResourcePathList (resource : Resource) (tree : List Resource) (fuel : Nat) :
    Option (List String) :=
  pathLoop tree fuel resource.pid [resource.name]

/-- Embedding of `getResourcePath`: the name sequence joined with the
fixed delimiter. -/
def getResourcePath (resource : Resource) (tree : List Resource) (fuel : Nat) :
    Option String :=
  (getResourcePathList resource tree fuel).map (String.intercalate "-")

/-- The parent chain starting at the given `pid` resolves through exactly
`k` further ancestors and then stops (the next lookup finds nothing). -/
def chainEndsB (rs : List Resource) : JSVal → Nat → Bool
  | pid, 0 => (parentOf rs pid).isNone
  | pid, k + 1 =>
      match parentOf rs pid with
      | none => false
      | some p => chainEndsB rs p.pid k

/-! ### The reference-token scanner

`handleSelectionChange` and `provideHover` find occurrences of the regex
`getRes\((\d+)\)` in a line.  The scan below reproduces global
non-overlapping left-to-right matching over the character list of the
line: at each position try to match the literal `getRes(`, a non-empty
maximal digit run, and `)`; on success record the match index and the
digit substring and resume after the closing parenthesis, otherwise
advance one character. -/

/-- One regex match: the index of the start of the whole match within
the line (`match.index`) and the captured digit run (`match[1]`). -/
structure ScanMatch where
  idx : Nat
  digits : String
deriving DecidableEq, Repr

/-- Split off the maximal leading digit run. -/
def takeDigits : List Char → List Char × List Char
  | [] => ([], [])
  | c :: cs =>
      if c.isDigit then
        let p := takeDigits cs
        (c :: p.1, p.2)
      else ([], c :: cs)

/-- Try to match `getRes(` + digits + `)` at the head of the character
list; on success return the digit run and the characters after the
closing parenthesis. -/
def matchAt : List Char → Option (String × List Char)
  | 'g' :: 'e' :: 't' :: 'R' :: 'e' :: 's' :: '(' :: rest =>
      match takeDigits rest with
      | ([], _) => none
      | (ds, ')' :: r2) => some (String.mk ds, r2)
      | (_, _) => none
  | _ => none

/-- Scan the remaining characters for matches; `i` is the current
position within the line, and the fuel (initially the line length)
bounds the recursion, each step consuming at least one character. -/
def scanAux : Nat → List Char → Nat → List ScanMatch
  | 0, _, _ => []
  | _ + 1, [], _ => []
  | fuel + 1, c :: cs, i =>
      match matchAt (c :: cs) with
      | some (ds, r2) => ⟨i, ds⟩ :: scanAux fuel r2 (i + ds.length + 8)
      | none => scanAux fuel cs (i + 1)

/-- All matches of `getRes\((\d+)\)` in a line, left to right
(`lineText.matchAll`). -/
def matchesOf (line : String) : List ScanMatch :=
  scanAux line.toList.length line.toList 0

/-- The first match in a line (`lineText.match`, used by the hover and
completion providers). -/
def firstMatch (line : String) : Option ScanMatch :=
  (matchesOf line).head?

/-- Resolution of a matched digit run against the snapshot:
`resources.find((r) => r.id.toString() === resourceId)`. -/
def resolveDigits (rs : List Resource) (d : String) : Option Resource :=
  rs.find? (fun r => jsToString r.id == d)

/-! ### handleSelectionChange -/

/-- The active cursor position (`editor.selection.active`). -/
structure Cursor where
  line : Nat
  char : Nat
deriving DecidableEq, Repr

/-- One decoration request pushed by `handleSelectionChange`: an empty
range at `(line, char)` with `contentText` rendered after it. -/
structure Deco where
  line : Nat
  char : Nat
  text : String
deriving DecidableEq, Repr

/-- The `isOnId` test of `handleSelectionChange`: the cursor is on line
`i` and its character offset lies between `idStart = match.index + 7`
and `idEnd = idStart + resourceId.length`, both inclusive. -/
def isOnId (cur : Cursor) (i : Nat) (m : ScanMatch) : Bool :=
  (cur.line == i) && (m.idx + 7 ≤ cur.char) && (cur.char ≤ m.idx + 7 + m.digits.length)

/-- The per-match state update of `handleSelectionChange`: when the
cursor is not on the id, push a decoration at `idEnd` showing the path;
when it is, overwrite the status-bar text with `id:path`. -/
def stepState (cur : Cursor) (i : Nat) (m : ScanMatch) (p : String)
    (st : List Deco × Option String) : List Deco × Option String :=
  let st1 := if isOnId cur i m then st else
    (st.1 ++ [⟨i, m.idx + 7 + m.digits.length, p⟩], st.2)
  if isOnId cur i m then (st1.1, some (m.digits ++ ":" ++ p)) else st1

/-- Process a list of matches (paired with their line numbers) in order,
threading the decoration array and the status-bar text; a match whose id
does not resolve is skipped, and the whole handler diverges (`none`)
when a path computation does not terminate within the fuel. -/
def processOccs (fuel : Nat) (rs : List Resource) (cur : Cursor) :
    List (Nat × ScanMatch) → List Deco × Option String →
    Option (List Deco × Option String)
  | [], st => some st
  | (i, m) :: rest, st =>
      match resolveDigits rs m.digits with
      | none => processOccs fuel rs cur rest st
      | some res =>
          match getResourcePath res rs fuel with
          | none => none
          | some p => processOccs fuel rs cur rest (stepState cur i m p st)

/-- Process the enumerated document lines in order. -/
def handleLines (fuel : Nat) (rs : List Resource) (cur : Cursor) :
    List (Nat × String) → List Deco × Option String →
    Option (List Deco × Option String)
  | [], st => some st
  | (i, t) :: rest, st =>
      match processOccs fuel rs cur ((matchesOf t).map (fun m => (i, m))) st with
      | none => none
      | some st2 => handleLines fuel rs cur rest st2

/-- Embedding of `handleSelectionChange`: starting from an empty
decoration array and an untouched status bar, scan every line of the
document and return the pushed decorations and the final status text. -/
def handleSelectionChange (fuel : Nat) (rs : List Resource)
    (lines : List String) (cur : Cursor) : Option (List Deco × Option String) :=
  handleLines fuel rs cur lines.enum ([], none)

/-! ### provideHover -/

/-- A fragment of the Markdown hover content. -/
inductive Part where
  | codeblock (s lang : String)
  | text (s : String)
deriving DecidableEq, Repr

/-- Embedding of `provideHover`: take the first `getRes(<digits>)` match
of the line at the hover position, resolve the digit run against the
snapshot, and return the path codeblock, a separator, and the `code`
codeblock.  The character offset of the position is received but never
used by the source. -/
def provideHover (fuel : Nat) (rs : List Resource) (line : String) (_pos : Nat) :
    Option (List Part) :=
  match firstMatch line with
  | none => none
  | some m =>
      match resolveDigits rs m.digits with
      | none => none
      | some r =>
          (getResourcePath r rs fuel).map
            (fun p => [Part.codeblock p "typescript", Part.text "\n",
                       Part.codeblock r.code "css"])

/-- The match whose token span `[idx, idx + 7 + digits + 1]` contains a
character position (used to state what "the reference token at the
position" means). -/
def tokenAtPos (line : String) (pos : Nat) : Option ScanMatch :=
  (matchesOf line).find?
    (fun m => m.idx ≤ pos && pos ≤ m.idx + 7 + m.digits.length + 1)

/-! ### Specification-side scan description

The following definitions restate §4.4 of the specification in its own
terms: collect every occurrence of the token grammar over the whole
buffer, resolve each one (skipping unresolved ids), emit an annotation
for every resolved occurrence without cursor overlap, and let the last
overlapping occurrence in scan order win the status display.  Claim C4
asserts that `handleSelectionChange` coincides with this description. -/

/-- All token occurrences of the whole buffer, line by line. -/
def allOccurrences (lines : List String) : List (Nat × ScanMatch) :=
  lines.enum.flatMap (fun it => (matchesOf it.2).map (fun m => (it.1, m)))

/-- A resolved occurrence: line, match, resource and resolved path. -/
structure ResolvedOcc where
  line : Nat
  m : ScanMatch
  res : Resource
  path : String
deriving DecidableEq, Repr

/-- Spec §4.4 step 2: resolve each occurrence, skipping the ones whose
id is unknown; `none` propagates a diverging path resolution. -/
def resolveOccs (fuel : Nat) (rs : List Resource) :
    List (Nat × ScanMatch) → Option (List ResolvedOcc)
  | [] => some []
  | (i, m) :: rest =>
      match resolveDigits rs m.digits with
      | none => resolveOccs fuel rs rest
      | some r =>
          match getResourcePath r rs fuel with
          | none => none
          | some p => (resolveOccs fuel rs rest).map (fun os => ⟨i, m, r, p⟩ :: os)

/-- Spec §4.4 step 3: cursor overlap, stated on `idStart` and `idEnd`. -/
def cursorOverlap (cur : Cursor) (line idStart idEnd : Nat) : Bool :=
  (cur.line == line) && (idStart ≤ cur.char) && (cur.char ≤ idEnd)

/-- Spec §4.4 step 4: one annotation request, positioned immediately
after the id span, per resolved occurrence without cursor overlap. -/
def specAnnotations (cur : Cursor) (os : List ResolvedOcc) : List Deco :=
  (os.filter (fun o =>
      !cursorOverlap cur o.line (o.m.idx + 7) (o.m.idx + 7 + o.m.digits.length))).map
    (fun o => ⟨o.line, o.m.idx + 7 + o.m.digits.length, o.path⟩)

/-- Spec §4.4 step 5: the status projection `id:path`; among several
overlapping occurrences the last one evaluated in scan order wins. -/
def lastStatus (cur : Cursor) (s0 : Option String) : List ResolvedOcc → Option String
  | [] => s0
  | o :: rest =>
      lastStatus cur
        (if cursorOverlap cur o.line (o.m.idx + 7) (o.m.idx + 7 + o.m.digits.length) then
          some (o.m.digits ++ ":" ++ o.path)
        else s0) rest

/-- The complete scan outcome as described by spec §4.4. -/
def scanSpec (fuel : Nat) (rs : List Resource) (lines : List String) (cur : Cursor) :
    Option (List Deco × Option String) :=
  (resolveOccs fuel rs (allOccurrences lines)).map
    (fun os => (specAnnotations cur os, lastStatus cur none os))

/-! ### Concrete snapshots used as test inputs -/

/-- The cyclic snapshot of the cycle scenario:
`[{id:1,pid:2,...},{id:2,pid:1,...}]`. -/
def c1cycle : List Resource :=
  [⟨.num 1, .num 2, "a", ""⟩, ⟨.num 2, .num 1, "b", ""⟩]

/-- A snapshot with a well-formed chain and one orphan whose declared
parent id 99 matches no record. -/
def c2rs : List Resource :=
  [⟨.num 1, .undef, "a", ""⟩, ⟨.num 2, .num 1, "b", ""⟩, ⟨.num 3, .num 99, "c", ""⟩]

/-- Scenario A snapshot: a root named `A` with one child named `B`. -/
def c3rs : List Resource :=
  [⟨.num 1, .null, "A", ""⟩, ⟨.num 2, .num 1, "B", ""⟩]

/-- The child record of the scenario A snapshot. -/
def c3r : Resource := ⟨.num 2, .num 1, "B", ""⟩

/-- Two resolvable resources for the hover scenario. -/
def c7rs : List Resource :=
  [⟨.num 1, .undef, "one", "c1"⟩, ⟨.num 2, .undef, "two", "c2"⟩]

/-- A line holding two reference tokens. -/
def c7line : String := "getRes(1) getRes(2)"

/-- A snapshot where id 0 exists and a record declares `pid: 0`. -/
def c9rs : List Resource :=
  [⟨.num 0, .undef, "P", ""⟩, ⟨.num 1, .num 0, "C", ""⟩]

/-- The record with the falsy parent id 0. -/
def c9child : Resource := ⟨.num 1, .num 0, "C", ""⟩

/-- The record whose id 0 strictly equals the child's `pid`. -/
def c9parent : Resource := ⟨.num 0, .undef, "P", ""⟩

/-- A snapshot holding both a string id `"007"` and a numeric id `7`. -/
def c10rs : List Resource :=
  [⟨.str "007", .undef, "x", ""⟩, ⟨.num 7, .undef, "y", ""⟩]

/-! ## Theorems -/

/-- The loop state of the cyclic snapshot alternates between the two
records, so the walk is still inside the loop after any number of
iterations, whatever names have accumulated. -/
lemma c1_loop_stuck :
    ∀ (fuel : Nat) (acc : List String),
      pathLoop c1cycle fuel (JSVal.num 2) acc = none ∧
      pathLoop c1cycle fuel (JSVal.num 1) acc = none := by
  intro fuel
  induction fuel with
  | zero => exact fun _ => ⟨rfl, rfl⟩
  | succ n ih =>
      intro acc
      refine ⟨?_, ?_⟩
      · show pathLoop c1cycle n (JSVal.num 1) ("b" :: acc) = none
        exact (ih _).2
      · show pathLoop c1cycle n (JSVal.num 2) ("a" :: acc) = none
        exact (ih _).1

/-- C1: the claim asserts that `getResourcePath` terminates on the cyclic
snapshot `[{id:1,pid:2},{id:2,pid:1}]` and returns a finite, non-empty
name sequence.  The source has no visited-set guard: for every iteration
bound the walk is still inside the `while` loop on either record, i.e.
the chain walk diverges and no sequence is ever returned. -/
theorem c1_cycle_walk_diverges :
    ∀ fuel : Nat,
      getResourcePath ⟨.num 1, .num 2, "a", ""⟩ c1cycle fuel = none ∧
      getResourcePath ⟨.num 2, .num 1, "b", ""⟩ c1cycle fuel = none := by
  intro fuel
  have h := c1_loop_stuck fuel
  constructor
  · show (pathLoop c1cycle fuel (JSVal.num 2) ["a"]).map (String.intercalate "-") = none
    rw [(h ["a"]).1]
    rfl
  · show (pathLoop c1cycle fuel (JSVal.num 1) ["b"]).map (String.intercalate "-") = none
    rw [(h ["b"]).2]
    rfl

/-- When the parent chain from a given `pid` resolves through `k`
ancestors and then stops, the loop exits within any fuel above `k` and
contributes exactly `k` prepended names. -/
lemma pathLoop_of_chainEnds (rs : List Resource) :
    ∀ (k fuel : Nat) (pid : JSVal) (acc : List String),
      chainEndsB rs pid k = true → k < fuel →
      ∃ names : List String,
        pathLoop rs fuel pid acc = some (names ++ acc) ∧ names.length = k := by
  intro k
  induction k with
  | zero =>
      intro fuel pid acc hc hf
      cases fuel with
      | zero => omega
      | succ n =>
          cases hp : parentOf rs pid with
          | none => exact ⟨[], by simp [pathLoop, hp], rfl⟩
          | some p => simp [chainEndsB, hp] at hc
  | succ k ih =>
      intro fuel pid acc hc hf
      cases fuel with
      | zero => omega
      | succ n =>
          cases hp : parentOf rs pid with
          | none => simp [chainEndsB, hp] at hc
          | some p =>
              have hc2 : chainEndsB rs p.pid k = true := by
                simpa [chainEndsB, hp] using hc
              obtain ⟨names, h1, h2⟩ := ih n p.pid (p.name :: acc) hc2 (by omega)
              refine ⟨names ++ [p.name], ?_, by simp [h2]⟩
              simp [pathLoop, hp, h1]

/-- C3: when the parent chain of `r` resolves through `k` ancestors, the
name sequence built by `getResourcePath` has exactly `k + 1` elements,
ends with `r.name`, and the function returns it joined with the fixed
delimiter `-`. -/
theorem c3_path_shape (rs : List Resource) (r : Resource) (k fuel : Nat)
    (hc : chainEndsB rs r.pid k = true) (hf : k < fuel) :
    ∃ l : List String, getResourcePathList r rs fuel = some l ∧
      l.length = k + 1 ∧ l.getLast? = some r.name ∧
      getResourcePath r rs fuel = some (String.intercalate "-" l) := by
  obtain ⟨names, h1, h2⟩ := pathLoop_of_chainEnds rs k fuel r.pid [r.name] hc hf
  refine ⟨names ++ [r.name], h1, by simp [h2], List.getLast?_concat _, ?_⟩
  show (getResourcePathList r rs fuel).map (String.intercalate "-") = _
  have h3 : getResourcePathList r rs fuel = some (names ++ [r.name]) := h1
  rw [h3]
  rfl

/-- Witness for C3 on scenario A: the chain of `B` has one ancestor, the
sequence is two names long ending in `B`, joined as `A-B`. -/
theorem c3_witness :
    chainEndsB c3rs c3r.pid 1 = true ∧ 1 < 3 ∧
    (∃ l : List String, getResourcePathList c3r c3rs 3 = some l ∧
      l.length = 1 + 1 ∧ l.getLast? = some c3r.name ∧
      getResourcePath c3r c3rs 3 = some (String.intercalate "-" l)) :=
  ⟨by decide, by omega, c3_path_shape c3rs c3r 1 3 (by decide) (by omega)⟩

/-- C5: a failed fetch (connection or query) leaves the stored snapshot
unchanged and reports the failure, a successful fetch replaces it
wholesale, and a scan after a failed fetch reads the prior snapshot. -/
theorem c5_failed_refresh_keeps_snapshot (prev : List Resource) (e : String)
    (fuel : Nat) (lines : List String) (cur : Cursor) :
    (fetchResources prev (.connectFail e)).1 = prev
  ∧ (fetchResources prev (.queryFail e)).1 = prev
  ∧ (fetchResources prev (.connectFail e)).2.isSome = true
  ∧ (fetchResources prev (.queryFail e)).2.isSome = true
  ∧ (∀ rs2 : List Resource, fetchResources prev (.success rs2) = (rs2, none))
  ∧ handleSelectionChange fuel (fetchResources prev (.queryFail e)).1 lines cur =
      handleSelectionChange fuel prev lines cur :=
  ⟨rfl, rfl, rfl, rfl, fun _ => rfl, rfl⟩

/-- C10: id resolution compares the `toString` coercion of the stored id
with the matched digit run for exact string equality, taking the first
record in snapshot order; a string id `"007"` never resolves from the
token digits `7`, and a numeric id `7` never resolves from `007`. -/
theorem c10_exact_string_match (rs : List Resource) :
    (∀ d : String, resolveDigits rs d = rs.find? (fun r => jsToString r.id == d))
  ∧ (∀ (d : String) (r : Resource), resolveDigits rs d = some r → jsToString r.id = d)
  ∧ (∀ r : Resource, r.id = JSVal.str "007" → resolveDigits rs "7" ≠ some r)
  ∧ (∀ r : Resource, r.id = JSVal.num 7 → resolveDigits rs "007" ≠ some r) := by
  have key : ∀ (d : String) (r : Resource), resolveDigits rs d = some r →
      jsToString r.id = d := by
    intro d r h
    have hb := @List.find?_some Resource (fun q => jsToString q.id == d) r rs h
    exact eq_of_beq hb
  refine ⟨fun _ => rfl, key, ?_, ?_⟩
  · intro r hid h
    have h2 := key _ _ h
    rw [hid] at h2
    exact absurd h2 (by decide)
  · intro r hid h
    have h2 := key _ _ h
    rw [hid] at h2
    exact absurd h2 (by decide)

/-- Witness for C10 on a snapshot holding both ids. -/
theorem c10_witness :
    resolveDigits c10rs "7" ≠ some ⟨.str "007", .undef, "x", ""⟩
  ∧ resolveDigits c10rs "007" ≠ some ⟨.num 7, .undef, "y", ""⟩ := by
  have h := c10_exact_string_match c10rs
  exact ⟨h.2.2.1 _ rfl, h.2.2.2 _ rfl⟩

/-- C6: an occurrence whose digit run resolves to no record contributes
nothing to the scan — processing a match list equals processing its
resolvable sublist, so no decoration is pushed and the status text is
untouched — and the hover provider returns nothing when the matched id
is unknown. -/
theorem c6_unresolved_skipped (fuel : Nat) (rs : List Resource) (cur : Cursor) :
    (∀ (occs : List (Nat × ScanMatch)) (st : List Deco × Option String),
      processOccs fuel rs cur occs st =
        processOccs fuel rs cur
          (occs.filter (fun o => (resolveDigits rs o.2.digits).isSome)) st)
  ∧ (∀ (line : String) (pos : Nat) (m : ScanMatch),
      firstMatch line = some m → resolveDigits rs m.digits = none →
      provideHover fuel rs line pos = none) := by
  constructor
  · intro occs
    induction occs with
    | nil => intro st; rfl
    | cons o rest ih =>
        intro st
        obtain ⟨i, m⟩ := o
        cases hres : resolveDigits rs m.digits with
        | none => simp [processOccs, hres, ih]
        | some r =>
            cases hp : getResourcePath r rs fuel with
            | none => simp [processOccs, hres, hp]
            | some p => simp [processOccs, hres, hp, ih]
  · intro line pos m hm hres
    simp [provideHover, hm, hres]

/-- Witness for C6: with an empty snapshot the only occurrence of the
line is skipped and the hover is empty. -/
theorem c6_witness :
    processOccs 3 [] ⟨0, 0⟩ [(0, ⟨4, "5"⟩)] ([], none) =
      processOccs 3 [] ⟨0, 0⟩
        ([(0, (⟨4, "5"⟩ : ScanMatch))].filter
          (fun o => (resolveDigits [] o.2.digits).isSome)) ([], none)
  ∧ provideHover 3 [] "x = getRes(5)" 0 = none := by
  have h := c6_unresolved_skipped 3 [] ⟨0, 0⟩
  exact ⟨h.1 [(0, ⟨4, "5"⟩)] ([], none),
    h.2 "x = getRes(5)" 0 ⟨4, "5"⟩ (by decide) (by decide)⟩

/-- C7 as stated is false: the hover payload is built from the first
token match of the whole line, not from the match at the hover position.
On the line `getRes(1) getRes(2)` the token sitting at character 17 is
`getRes(2)`, whose id resolves with path `two` and code `c2`, yet the
payload shows the path and code of resource 1. -/
theorem c7_counterexample :
    tokenAtPos c7line 17 = some ⟨10, "2"⟩
  ∧ resolveDigits c7rs "2" = some ⟨.num 2, .undef, "two", "c2"⟩
  ∧ getResourcePath ⟨.num 2, .undef, "two", "c2"⟩ c7rs 3 = some "two"
  ∧ provideHover 3 c7rs c7line 17 =
      some [Part.codeblock "one" "typescript", Part.text "\n", Part.codeblock "c1" "css"]
  ∧ provideHover 3 c7rs c7line 17 ≠
      some [Part.codeblock "two" "typescript", Part.text "\n", Part.codeblock "c2" "css"] :=
  ⟨by decide, by decide, by decide, by decide, by decide⟩

/-- C7 amended: for every hover request, when the FIRST reference token
on the line containing the position resolves, the payload is exactly two
tagged blocks derived from that resource — the resolved path tagged
`typescript`, then the resource's `code` text tagged `css`. -/
theorem c7_hover_blocks (fuel : Nat) (rs : List Resource) (line : String)
    (pos : Nat) (m : ScanMatch) (r : Resource) (p : String)
    (hm : firstMatch line = some m) (hr : resolveDigits rs m.digits = some r)
    (hp : getResourcePath r rs fuel = some p) :
    provideHover fuel rs line pos =
      some [Part.codeblock p "typescript", Part.text "\n",
            Part.codeblock r.code "css"] := by
  simp [provideHover, hm, hr, hp]

/-- Witness for the amended C7 at the two-token line. -/
theorem c7_witness :
    provideHover 3 c7rs c7line 17 =
      some [Part.codeblock "one" "typescript", Part.text "\n",
            Part.codeblock "c1" "css"] :=
  c7_hover_blocks 3 c7rs c7line 17 ⟨0, "1"⟩ ⟨.num 1, .undef, "one", "c1"⟩ "one"
    (by decide) (by decide) (by decide)

/-- The overlap test of the specification instantiated at the id span of
a match is the `isOnId` test of the source. -/
lemma cursorOverlap_eq_isOnId (cur : Cursor) (i : Nat) (m : ScanMatch) :
    cursorOverlap cur i (m.idx + 7) (m.idx + 7 + m.digits.length) = isOnId cur i m :=
  rfl

/-- Processing a concatenation of match lists processes the two parts in
sequence, propagating divergence. -/
lemma processOccs_append (fuel : Nat) (rs : List Resource) (cur : Cursor)
    (a b : List (Nat × ScanMatch)) :
    ∀ st, processOccs fuel rs cur (a ++ b) st =
      (processOccs fuel rs cur a st).bind (fun st2 => processOccs fuel rs cur b st2) := by
  induction a with
  | nil => intro st; simp [processOccs]
  | cons o rest ih =>
      intro st
      obtain ⟨i, m⟩ := o
      cases hres : resolveDigits rs m.digits with
      | none => simp [processOccs, hres, ih]
      | some r =>
          cases hp : getResourcePath r rs fuel with
          | none => simp [processOccs, hres, hp]
          | some p => simp [processOccs, hres, hp, ih]

/-- The imperative per-match fold of `handleSelectionChange` computes the
annotation set and the last-overlap status of the specification. -/
lemma processOccs_spec (fuel : Nat) (rs : List Resource) (cur : Cursor) :
    ∀ (occs : List (Nat × ScanMatch)) (st : List Deco × Option String),
      processOccs fuel rs cur occs st =
        (resolveOccs fuel rs occs).map
          (fun os => (st.1 ++ specAnnotations cur os, lastStatus cur st.2 os)) := by
  intro occs
  induction occs with
  | nil => intro st; simp [processOccs, resolveOccs, specAnnotations, lastStatus]
  | cons o rest ih =>
      intro st
      obtain ⟨i, m⟩ := o
      cases hres : resolveDigits rs m.digits with
      | none => simp [processOccs, resolveOccs, hres, ih]
      | some r =>
          cases hp : getResourcePath r rs fuel with
          | none => simp [processOccs, resolveOccs, hres, hp]
          | some p =>
              rw [show processOccs fuel rs cur ((i, m) :: rest) st =
                  processOccs fuel rs cur rest (stepState cur i m p st) by
                simp [processOccs, hres, hp]]
              rw [ih]
              cases hos : resolveOccs fuel rs rest with
              | none => simp [resolveOccs, hres, hp, hos]
              | some os =>
                  simp only [resolveOccs, hres, hp, hos, Option.map_some]
                  cases hov : isOnId cur i m with
                  | true =>
                      simp [stepState, hov, specAnnotations, lastStatus,
                        cursorOverlap_eq_isOnId]
                  | false =>
                      simp [stepState, hov, specAnnotations, lastStatus,
                        cursorOverlap_eq_isOnId]

/-- The line loop of `handleSelectionChange` processes the concatenation
of the per-line match lists. -/
lemma handleLines_eq (fuel : Nat) (rs : List Resource) (cur : Cursor) :
    ∀ (ls : List (Nat × String)) (st : List Deco × Option String),
      handleLines fuel rs cur ls st =
        processOccs fuel rs cur
          (ls.flatMap (fun it => (matchesOf it.2).map (fun m => (it.1, m)))) st := by
  intro ls
  induction ls with
  | nil => intro st; simp [handleLines, processOccs]
  | cons it rest ih =>
      intro st
      obtain ⟨i, t⟩ := it
      rw [List.flatMap_cons, processOccs_append]
      cases h : processOccs fuel rs cur ((matchesOf t).map (fun m => (i, m))) st with
      | none => simp [handleLines, h]
      | some st2 => simp [handleLines, h, ih]

/-- C4: the cursor-overlap test of the source is exactly the inclusive
`[idStart, idEnd]` test with `idStart` just after the literal, and the
whole scan equals the specification projection — one annotation after
the id span per resolved non-overlapping occurrence, and the status
payload `id:path` from the last overlapping occurrence. -/
theorem c4_scan_classification :
    (∀ (cur : Cursor) (i : Nat) (m : ScanMatch),
      isOnId cur i m = cursorOverlap cur i (m.idx + 7) (m.idx + 7 + m.digits.length))
  ∧ (∀ (fuel : Nat) (rs : List Resource) (lines : List String) (cur : Cursor),
      handleSelectionChange fuel rs lines cur = scanSpec fuel rs lines cur) := by
  refine ⟨fun _ _ _ => rfl, ?_⟩
  intro fuel rs lines cur
  show handleLines fuel rs cur lines.enum ([], none) = _
  rw [handleLines_eq, processOccs_spec]
  simp [scanSpec, allOccurrences]

/-- Membership in the insertion-order dedup fold. -/
lemma mem_dedupFold (ks : List String) :
    ∀ (acc : List String) (x : String),
      (x ∈ ks.foldl (fun a k => if k ∈ a then a else a ++ [k]) acc) ↔
        x ∈ acc ∨ x ∈ ks := by
  induction ks with
  | nil => intro acc x; simp
  | cons k t ih =>
      intro acc x
      rw [List.foldl_cons]
      by_cases hk : k ∈ acc
      · rw [if_pos hk, ih]
        constructor
        · rintro (h | h)
          · exact Or.inl h
          · exact Or.inr (List.mem_cons_of_mem _ h)
        · rintro (h | h)
          · exact Or.inl h
          · rcases List.mem_cons.1 h with h2 | h2
            · exact Or.inl (h2 ▸ hk)
            · exact Or.inr h2
      · rw [if_neg hk, ih]
        simp [List.mem_append, List.mem_cons, or_assoc]

/-- Membership in the first-occurrence key list. -/
lemma mem_firstOccKeys (ks : List String) (x : String) :
    x ∈ firstOccKeys ks ↔ x ∈ ks := by
  unfold firstOccKeys
  simpa using mem_dedupFold ks [] x

/-- Membership in the sorted-insert helper. -/
lemma mem_insertAsc (a x : String) (l : List String) :
    x ∈ insertAsc a l ↔ x = a ∨ x ∈ l := by
  induction l with
  | nil => simp [insertAsc]
  | cons b t ih =>
      by_cases h : digitsVal a ≤ digitsVal b
      · simp [insertAsc, h]
      · rw [show insertAsc a (b :: t) = b :: insertAsc a t by simp [insertAsc, h]]
        rw [List.mem_cons, ih, List.mem_cons]
        tauto

/-- Sorting the array-index keys does not change membership. -/
lemma mem_sortNumeric (l : List String) (x : String) :
    x ∈ sortNumeric l ↔ x ∈ l := by
  induction l with
  | nil => simp [sortNumeric]
  | cons k t ih =>
      show x ∈ insertAsc k (sortNumeric t) ↔ _
      rw [mem_insertAsc, ih]
      exact (List.mem_cons).symm

/-- A string is an enumerated key of the `tree` object iff it is the
key coercion of some record id. -/
lemma mem_objectKeys (rs : List Resource) (k : String) :
    k ∈ objectKeys rs ↔ k ∈ rs.map (fun r => jsToString r.id) := by
  unfold objectKeys
  rw [List.mem_append, mem_sortNumeric]
  simp only [List.mem_filter, mem_firstOccKeys]
  cases h : isArrayIndex k <;> simp [h]

/-- Under unique keys, filtering the snapshot by the key of a member
yields exactly that member. -/
lemma filter_key_single (rs : List Resource) (r : Resource)
    (hnd : (rs.map (fun q => jsToString q.id)).Nodup) (hr : r ∈ rs) :
    rs.filter (fun q => jsToString q.id == jsToString r.id) = [r] := by
  induction rs with
  | nil => cases hr
  | cons a t ih =>
      rw [List.map_cons, List.nodup_cons] at hnd
      obtain ⟨ha, hnd2⟩ := hnd
      rcases List.mem_cons.1 hr with rfl | hrt
      · rw [List.filter_cons_of_pos (by simp)]
        have ht : t.filter (fun q => jsToString q.id == jsToString r.id) = [] := by
          apply List.filter_eq_nil_iff.2
          intro q hq
          simp only [beq_iff_eq]
          intro hEq
          exact ha (hEq ▸ List.mem_map.2 ⟨q, hq, rfl⟩)
        rw [ht]
      · have hne : (jsToString a.id == jsToString r.id) = false := by
          simp only [beq_eq_false_iff_ne, ne_eq]
          intro hEq
          exact ha (hEq ▸ List.mem_map.2 ⟨r, hrt, rfl⟩)
        rw [List.filter_cons_of_neg (by simp [hne])]
        exact ih hnd2 hrt

/-- An element delivered by `getLast?` is a member of the list. -/
lemma mem_of_getLast?_some :
    ∀ {l : List Resource} {x : Resource}, l.getLast? = some x → x ∈ l := by
  intro l
  induction l with
  | nil => intro x h; cases h
  | cons a t ih =>
      intro x h
      cases t with
      | nil =>
          have hax : a = x := by simpa using h
          exact hax ▸ List.mem_cons_self a []
      | cons b t2 =>
          rw [List.getLast?_cons_cons] at h
          exact List.mem_cons_of_mem _ (ih h)

/-- Under unique keys the values of the `tree` object are exactly the
snapshot records. -/
lemma mem_objectValues (rs : List Resource) (r : Resource)
    (hnd : (rs.map (fun q => jsToString q.id)).Nodup) :
    r ∈ objectValues rs ↔ r ∈ rs := by
  constructor
  · intro h
    obtain ⟨k, _, hv⟩ := List.mem_filterMap.1 h
    have hmem : r ∈ rs.filter (fun q => jsToString q.id == k) :=
      mem_of_getLast?_some hv
    exact (List.mem_filter.1 hmem).1
  · intro hr
    apply List.mem_filterMap.2
    refine ⟨jsToString r.id, (mem_objectKeys rs _).2 (List.mem_map.2 ⟨r, hr, rfl⟩), ?_⟩
    show (rs.filter (fun q => jsToString q.id == jsToString r.id)).getLast? = some r
    rw [filter_key_single rs r hnd hr]
    rfl

/-- Under unique keys, a snapshot record is a forest root iff its `pid`
is falsy. -/
lemma mem_roots_iff (rs : List Resource) (r : Resource)
    (hnd : (rs.map (fun q => jsToString q.id)).Nodup) (hr : r ∈ rs) :
    r ∈ rootsOf rs ↔ jsTruthy r.pid = false := by
  unfold rootsOf
  rw [List.mem_filter, mem_objectValues rs r hnd]
  simp [hr]

/-- The children fold evaluated at a key is the accumulator followed by
the keys of the records attached to that key, in input order. -/
lemma childFold_apply (rs0 : List Resource) :
    ∀ (l : List Resource) (m : String → List String) (k : String),
      (l.foldl (childStep rs0) m) k =
        m k ++ ((l.filter (fun r => (jsTruthy r.pid && hasKey rs0 (jsToString r.pid)) &&
            (jsToString r.pid == k))).map (fun r => jsToString r.id)) := by
  intro l
  induction l with
  | nil => intro m k; simp
  | cons r t ih =>
      intro m k
      rw [List.foldl_cons, ih]
      by_cases hc : (jsTruthy r.pid && hasKey rs0 (jsToString r.pid)) = true
      · by_cases hk : jsToString r.pid = k
        · have hpk : (jsToString r.pid == k) = true := beq_iff_eq.2 hk
          rw [List.filter_cons_of_pos (by rw [hc, hpk]; rfl)]
          have hstep : childStep rs0 m r k = m k ++ [jsToString r.id] := by
            unfold childStep
            rw [if_pos hc]
            show (if (k == jsToString r.pid) = true then m k ++ [jsToString r.id]
              else m k) = _
            rw [if_pos (beq_iff_eq.2 hk.symm)]
          rw [hstep, List.map_cons, List.append_assoc, List.singleton_append]
        · have hpk : (jsToString r.pid == k) = false := by
            simp only [beq_eq_false_iff_ne, ne_eq]
            exact hk
          rw [List.filter_cons_of_neg (by rw [hpk]; simp)]
          have hstep : childStep rs0 m r k = m k := by
            unfold childStep
            rw [if_pos hc]
            show (if (k == jsToString r.pid) = true then m k ++ [jsToString r.id]
              else m k) = _
            rw [if_neg]
            simp only [beq_iff_eq]
            exact fun h => hk h.symm
          rw [hstep]
      · rw [List.filter_cons_of_neg (by
          intro h
          simp only [Bool.and_eq_true] at h hc
          exact hc h.1)]
        have hstep : childStep rs0 m r = m := by
          unfold childStep
          rw [if_neg hc]
        rw [hstep]

/-- The children list of a node is the key sequence of the records
attached to it, in input-record order. -/
lemma childrenMap_eq (rs : List Resource) (k : String) :
    childrenMap rs k =
      ((rs.filter (fun r => (jsTruthy r.pid && hasKey rs (jsToString r.pid)) &&
          (jsToString r.pid == k))).map (fun r => jsToString r.id)) := by
  unfold childrenMap
  rw [childFold_apply rs rs (fun _ => []) k]
  rfl

/-- Under unique keys, a record whose `pid` is falsy or key-unresolvable
is never pushed onto any children list. -/
lemma not_in_children (rs : List Resource) (r : Resource)
    (hnd : (rs.map (fun q => jsToString q.id)).Nodup) (hr : r ∈ rs)
    (h : jsTruthy r.pid = false ∨ hasKey rs (jsToString r.pid) = false) :
    ∀ k, jsToString r.id ∉ childrenMap rs k := by
  intro k hmem
  rw [childrenMap_eq] at hmem
  obtain ⟨q, hq, hqid⟩ := List.mem_map.1 hmem
  have hqrs : q ∈ rs := (List.mem_filter.1 hq).1
  have hqc := (List.mem_filter.1 hq).2
  have hqr : q = r := List.inj_on_of_nodup_map hnd hqrs hr hqid
  subst hqr
  rcases h with h | h <;> simp [h] at hqc

/-- C2 counterexample: in the snapshot `[{id:1,pid:2}]` the only record
declares a parent id that matches no id in the snapshot, so the claim
makes it a forest root; `buildResourceTree` returns no roots at all —
the record is dropped. -/
theorem c2_counterexample :
    (buildResourceTree [⟨.num 1, .num 2, "a", ""⟩]).1 = []
  ∧ ([(⟨.num 1, .num 2, "a", ""⟩ : Resource)].all
      (fun q => !jsStrictEq q.id (JSVal.num 2))) = true
  ∧ (⟨.num 1, .num 2, "a", ""⟩ : Resource) ∈
      ([⟨.num 1, .num 2, "a", ""⟩] : List Resource) := by
  refine ⟨by decide, by decide, by decide⟩

/-- C2 amended: under unique keys, a record is a forest root iff its
`pid` is falsy (absent, null, 0 or the empty string); a record whose
`pid` is truthy is not a root, and when the `pid` key also resolves to
no node the record is dropped — not a root and on no children list. -/
theorem c2_roots_truthiness (rs : List Resource) (r : Resource)
    (hnd : (rs.map (fun q => jsToString q.id)).Nodup) (hr : r ∈ rs) :
    (r ∈ (buildResourceTree rs).1 ↔ jsTruthy r.pid = false)
  ∧ (hasKey rs (jsToString r.pid) = false →
      ∀ k, jsToString r.id ∉ childrenMap rs k) :=
  ⟨mem_roots_iff rs r hnd hr,
    fun hk => not_in_children rs r hnd hr (Or.inr hk)⟩

/-- Witness for the amended C2: the orphan record with parent id 99 is
not a root (its truthy `pid` fails the root filter) and hangs off no
node. -/
theorem c2_witness :
    ((⟨.num 3, .num 99, "c", ""⟩ : Resource) ∈ (buildResourceTree c2rs).1 ↔
      jsTruthy (JSVal.num 99) = false)
  ∧ jsToString (JSVal.num 3) ∉ childrenMap c2rs "1" := by
  have h := c2_roots_truthiness c2rs ⟨.num 3, .num 99, "c", ""⟩ (by decide) (by decide)
  exact ⟨h.1, h.2 (by decide) "1"⟩

/-- C8: every children list is the key sequence of the corresponding
input records in input order (hence an order-preserving sublist of the
input key sequence), and rebuilding from the same input is identical. -/
theorem c8_children_order (rs : List Resource) :
    (∀ k, childrenMap rs k =
      ((rs.filter (fun r => (jsTruthy r.pid && hasKey rs (jsToString r.pid)) &&
          (jsToString r.pid == k))).map (fun r => jsToString r.id)))
  ∧ (∀ k, (childrenMap rs k).Sublist (rs.map (fun r => jsToString r.id)))
  ∧ buildResourceTree rs = buildResourceTree rs := by
  refine ⟨fun k => childrenMap_eq rs k, fun k => ?_, rfl⟩
  rw [childrenMap_eq]
  exact List.Sublist.map _ (List.filter_sublist rs)

/-- C9: a record whose `pid` is falsy but strictly equal to an existing
id (`pid: 0` beside a record of id 0) is a forest root and on no
children list, yet the path walk of `getResourcePath` still finds that
parent and prepends its name before continuing from it. -/
theorem c9_falsy_pid (rs : List Resource) (r p : Resource)
    (hnd : (rs.map (fun q => jsToString q.id)).Nodup) (hr : r ∈ rs)
    (hfalsy : jsTruthy r.pid = false)
    (hfind : parentOf rs r.pid = some p) :
    r ∈ (buildResourceTree rs).1
  ∧ (∀ k, jsToString r.id ∉ childrenMap rs k)
  ∧ (∀ fuel, getResourcePathList r rs (fuel + 1) =
      pathLoop rs fuel p.pid (p.name :: [r.name])) := by
  refine ⟨(mem_roots_iff rs r hnd hr).2 hfalsy,
    not_in_children rs r hnd hr (Or.inl hfalsy), ?_⟩
  intro fuel
  show pathLoop rs (fuel + 1) r.pid [r.name] = _
  simp [pathLoop, hfind]

/-- Witness for C9 on the snapshot with ids 0 and 1: the record with
`pid: 0` is a root, is on no children list, and its path walk prepends
the name of the id-0 record. -/
theorem c9_witness :
    c9child ∈ (buildResourceTree c9rs).1
  ∧ jsToString c9child.id ∉ childrenMap c9rs "0"
  ∧ getResourcePathList c9child c9rs (2 + 1) =
      pathLoop c9rs 2 c9parent.pid (c9parent.name :: [c9child.name]) := by
  have h := c9_falsy_pid c9rs c9child c9parent (by decide) (by decide)
    (by decide) (by decide)
  exact ⟨h.1, h.2.1 "0", h.2.2 2⟩

end ResExt
